import Mathlib

set_option autoImplicit false

/-!
A shallow embedding of the UEJsonCRDT document synchronization engine
(Source/UEJsonCRDT/Private/JsonCRDTDocument.cpp and
JsonCRDTDefaultConflictResolver.cpp), together with proofs about the
behaviour of patch application, conflict resolution, path resolution,
history bookkeeping and recovery.

Modelling conventions:
- JSON trees are the inductive `Json`; an `FJsonObject` is a field list.
- `FString` values that merely carry JSON-encoded text which the engine
  only ever consumes through deserialization (snapshot content, the local
  persistence record) are modelled by their parse result (`Option` of the
  parsed shape); serialization followed by deserialization of a JSON
  object round-trips.
- Wall-clock timestamps (`FDateTime::UtcNow`) are an environment input,
  passed explicitly as an integer `now` where the source stamps values.
- Engine file I/O either succeeds or only sets `LastErrorMessage`; the
  record read by `LoadFromLocal` is passed in as an explicit
  `Option LoadData` (none models a missing, unreadable or undeserializable
  file), and `SaveLocally` returns the record it writes.
- Observable side effects (delegate broadcasts, `ApplyOperation`
  invocations, logger calls) are collected in an explicit event trace.
- The document's conflict resolver is the default resolver constructed
  with the document's strategy, exactly as the source constructor installs
  it; host-supplied custom resolver objects are outside the repository.
-/

namespace JsonCRDT

/-- A JSON value as produced by the engine's JSON library. An object keeps
its fields as an association list with unique keys (`TMap` iteration
order). JSON numbers are doubles in the engine; no claim depends on
numeric values, so they are carried as integers. -/
inductive Json where
  | null
  | boolean (b : Bool)
  | num (n : Int)
  | str (s : String)
  | arr (elems : List Json)
  | obj (fields : List (String × Json))
deriving Inhabited

/-- The field list of an `FJsonObject`. -/
abbrev JsonObject := List (String × Json)

/-- Whether a JSON value is an object or an array (the two node kinds the
segment walk can descend into). -/
def Json.isContainer : Json → Bool
  | .obj _ => true
  | .arr _ => true
  | _ => false

/-- Model of `FString` equality (`operator==` / `operator!=`), which
compares ignoring letter case: both sides are folded to lower case
character by character. `Char.toLower` covers the ASCII range, which is
where every string the engine compares lives. -/
def fstringEq (a b : String) : Bool :=
  a.data.map Char.toLower == b.data.map Char.toLower

/-- Field lookup on an `FJsonObject` (`HasField` followed by `GetField`):
the underlying `TMap` keyed by `FString` matches keys case-insensitively,
so the lookup compares keys with `fstringEq`. -/
def lookupField (fields : JsonObject) (key : String) : Option Json :=
  match fields with
  | [] => none
  | (k, v) :: rest => if fstringEq k key then some v else lookupField rest key

/-- Drop one leading path separator, as the source does with
`PathCopy.RemoveAt(0, 1)` after `StartsWith` on a slash. -/
def stripLeadingSlash (cs : List Char) : List Char :=
  match cs with
  | [] => []
  | c :: rest => if c = '/' then rest else c :: rest

/-- Split a character list at every slash, keeping empty pieces; models
`FString::ParseIntoArray` before its empty-string culling. The first
argument accumulates the current piece in reverse. -/
def splitOnSlash (acc : List Char) : List Char → List (List Char)
  | [] => [acc.reverse]
  | c :: rest =>
    if c = '/' then acc.reverse :: splitOnSlash [] rest
    else splitOnSlash (c :: acc) rest

/-- Replace every occurrence of the two-character pattern tilde-`t` by the
single character `r`, scanning left to right without overlap; models one
`FString::ReplaceInline` pass over a path segment. -/
def replaceTildePair (t r : Char) : List Char → List Char
  | [] => []
  | c :: rest =>
    if c = '~' then
      match rest with
      | c2 :: rest2 =>
        if c2 = t then r :: replaceTildePair t r rest2
        else c :: replaceTildePair t r (c2 :: rest2)
      | [] => [c]
    else c :: replaceTildePair t r rest

/-- Unescape one path segment: first every tilde-one becomes a slash, then
every tilde-zero becomes a tilde, in that order, exactly as the two
`ReplaceInline` calls run in `GetValueAtPath`. -/
def unescapeSeg (cs : List Char) : List Char :=
  replaceTildePair '0' '~' (replaceTildePair '1' '/' cs)

/-- Accumulate the decimal value of a leading digit run. -/
def digitsVal (acc : Int) : List Char → Int
  | [] => acc
  | c :: rest =>
    if c.isDigit then digitsVal (acc * 10 + (Int.ofNat (c.toNat - 48))) rest
    else acc

/-- Reduce an integer to the signed 32-bit value with the same residue
modulo two to the thirty-two, the wrap-around a 32-bit accumulation
produces. -/
def toInt32 (n : Int) : Int :=
  let m := n % 4294967296
  if m < 2147483648 then m else m - 4294967296

/-- Integer parse of a segment, modelling `FCString::Atoi`: optional
leading whitespace, optional sign, then a digit run; anything else (and an
empty digit run) yields zero. The result is a 32-bit signed integer:
accumulating step by step in 32-bit arithmetic wraps to the same value as
wrapping the full digit run once, so the wrap is applied at the end. -/
def atoiChars (cs : List Char) : Int :=
  let cs := cs.dropWhile fun c => c = ' ' ∨ c = '\t' ∨ c = '\n' ∨ c = '\r'
  match cs with
  | '-' :: rest => toInt32 (- digitsVal 0 rest)
  | '+' :: rest => toInt32 (digitsVal 0 rest)
  | _ => toInt32 (digitsVal 0 cs)

/-- The segment walk of `GetValueAtPath` (its indexed for-loop). Each
segment is unescaped, then: on an object the segment is a field key whose
absence fails resolution; on an array the segment is `Atoi`-parsed and an
out-of-range index fails resolution; on any other value resolution fails
only when segments remain (`i < PathParts.Num() - 1`), a trailing segment
on a scalar returns the scalar itself. -/
def walkPath (cur : Json) : List (List Char) → Option Json
  | [] => some cur
  | part :: rest =>
    let p := unescapeSeg part
    match cur with
    | .obj fields =>
      match lookupField fields (String.mk p) with
      | none => none
      | some v => walkPath v rest
    | .arr elems =>
      let idx := atoiChars p
      if idx < 0 ∨ (Int.ofNat elems.length) ≤ idx then none
      else walkPath (elems.getD idx.toNat Json.null) rest
    | _ => if rest.isEmpty then some cur else none

/-- The parsed segments of a pointer path: strip one leading slash, split
on slashes, and cull empty segments (`ParseIntoArray` culls by default). -/
def pathParts (path : String) : List (List Char) :=
  (splitOnSlash [] (stripLeadingSlash path.data)).filter (· ≠ [])

/-- Model of `UJsonCRDTDocument::GetValueAtPath`. An empty path is rejected up
front (the source also rejects an invalid object pointer, which has no
counterpart for a value); a path with no remaining segments returns the
whole root. -/
def GetValueAtPath (root : JsonObject) (path : String) : Option Json :=
  if path = "" then none
  else
    let parts := pathParts path
    if parts.isEmpty then some (Json.obj root)
    else walkPath (Json.obj root) parts

/-- The six `EJsonCRDTOperationType` values. -/
inductive OperationType where
  | add
  | remove
  | replace
  | move
  | copy
  | test
deriving DecidableEq, Inhabited

/-- Model of `FJsonCRDTOperation`. `value` carries JSON-encoded text which
the engine compares only as an `FString` (case-insensitively, `fstringEq`). -/
structure Operation where
  type : OperationType
  path : String
  fromPath : String := ""
  value : String := ""
  timestamp : Int := 0
  clientId : String := ""
deriving DecidableEq, Inhabited

/-- Model of `FJsonCRDTPatch`. -/
structure Patch where
  documentId : String
  baseVersion : Int := 0
  operations : List Operation := []
  timestamp : Int := 0
  clientId : String := ""
deriving Inhabited

/-- Model of `FJsonCRDTSnapshot`. `content` is a serialized JSON string in the
source, consumed only through deserialization, so it is modelled by its
parse result; `none` covers text that does not parse to a JSON object
(including the default-constructed empty string). -/
structure Snapshot where
  documentId : String := ""
  version : Int := 0
  timestamp : Int := 0
  content : Option JsonObject := none
deriving Inhabited

/-- Model of `FJsonCRDTConflict`. -/
structure Conflict where
  path : String := ""
  localValue : String := ""
  remoteValue : String := ""
  localOperation : Operation := default
  remoteOperation : Operation := default
  resolvedValue : String := ""
  resolved : Bool := false
deriving DecidableEq, Inhabited

/-- Model of `EJsonCRDTConflictStrategy`. -/
inductive ConflictStrategy where
  | lastWriterWins
  | localWins
  | remoteWins
  | custom
deriving DecidableEq, Inhabited

/-- Model of `FJsonCRDTDefaultConflictResolver::ResolveLastWriterWins`: the local
value wins exactly when the local operation's timestamp is strictly
greater, otherwise (tie included) the remote value wins. -/
def ResolveLastWriterWins (c : Conflict) : Conflict :=
  { c with
    resolvedValue :=
      if c.remoteOperation.timestamp < c.localOperation.timestamp then c.localValue
      else c.remoteValue,
    resolved := true }

/-- Model of `FJsonCRDTDefaultConflictResolver::ResolveConflict`: dispatch on the
stored strategy; the custom strategy is not handled and reports failure.
Success returns the mutated conflict. -/
def ResolveConflictDefault (strategy : ConflictStrategy) (c : Conflict) : Option Conflict :=
  match strategy with
  | .lastWriterWins => some (ResolveLastWriterWins c)
  | .localWins => some { c with resolvedValue := c.localValue, resolved := true }
  | .remoteWins => some { c with resolvedValue := c.remoteValue, resolved := true }
  | .custom => none

/-- Model of `FJsonCRDTLogEntry` as filled in by `UJsonCRDTDocument::LogOperation`.
The random `LogID` GUID and the wall-clock entry timestamp are
environment noise and are not carried. `oldValue` is the serialized
current value at the path (empty in the source when resolution failed,
modelled as `none`). -/
structure LogEntry where
  documentId : String := ""
  operationType : String := ""
  path : String := ""
  oldValue : Option Json := none
  newValue : String := ""
  hadConflict : Bool := false
  conflict : Option Conflict := none
  clientId : String := ""
  source : String := ""
deriving Inhabited

/-- The display names `LogOperation` assigns to operation types. -/
def operationTypeName : OperationType → String
  | .add => "Add"
  | .remove => "Remove"
  | .replace => "Replace"
  | .move => "Move"
  | .copy => "Copy"
  | .test => "Test"

/-- Model of `UJsonCRDTDocument` state. `maxOperationHistory`, `maxSnapshotHistory`,
the strategy and the logging flag default as in the constructors (the
default logger starts enabled). The polymorphic resolver is the default
resolver over `conflictStrategy`. -/
structure Document where
  documentId : String := ""
  version : Int := 1
  content : JsonObject := []
  operationHistory : List Operation := []
  snapshotHistory : List Snapshot := []
  maxOperationHistory : Nat := 100
  maxSnapshotHistory : Nat := 10
  autoLocalSave : Bool := false
  conflictStrategy : ConflictStrategy := .lastWriterWins
  loggingEnabled : Bool := true
  lastError : String := ""
deriving Inhabited

/-- Observable side effects of document methods, in emission order:
`ApplyOperation` invocations, `OnConflictDetected` broadcasts, logger
calls, `OnDocumentChanged` broadcasts and `OnDocumentRecovered`
broadcasts. -/
inductive DocEvent where
  | applied (op : Operation)
  | conflictDetected (c : Conflict)
  | logged (entry : LogEntry)
  | documentChanged (documentId : String)
  | documentRecovered (documentId : String) (sourceTag : String)
deriving Inhabited

/-- Model of `UJsonCRDTDocument::LogOperation`: when the logger is enabled, emit one
entry whose `source` is always the literal `"Remote"`; the conflict payload
is attached only when a conflict was flagged. -/
def LogOperation (doc : Document) (op : Operation) (oldValue : Option Json)
    (newValue : String) (hadConflict : Bool) (conflict : Option Conflict) :
    List DocEvent :=
  if doc.loggingEnabled then
    [DocEvent.logged
      { documentId := doc.documentId
        operationType := operationTypeName op.type
        path := op.path
        oldValue := oldValue
        newValue := newValue
        hadConflict := hadConflict
        conflict := if hadConflict then conflict else none
        clientId := op.clientId
        source := "Remote" }]
  else []

/-- The pre-operation current-value capture at the top of the `ApplyPatch`
loop: only Replace, Remove and Test operations resolve their path against
the current content (the serialized string stays empty otherwise, modelled
as `none`). -/
def oldValueOf (content : JsonObject) (op : Operation) : Option Json :=
  match op.type with
  | .replace | .remove | .test => GetValueAtPath content op.path
  | _ => none

/-- One history append followed by the capacity check of `ApplyPatch`
(`RemoveAt(0)` once the count exceeds `MaxOperationHistory`). -/
def appendOpTrim (maxHist : Nat) (hist : List Operation) (op : Operation) :
    List Operation :=
  let h := hist ++ [op]
  if maxHist < h.length then h.tail else h

/-- Model of `ApplyOperation`: the source dispatches on the operation type
with every case an empty stub, so the content is returned unchanged for
all six operation kinds. -/
def ApplyOperation (content : JsonObject) (_op : Operation) : JsonObject :=
  content

/-- The backwards history scan of `ApplyPatch` for an incoming Replace
operation (its indexed inner for-loop), faithfully including that the
loop's index keeps walking after a match: the `continue` statement in the
resolved-conflict branch continues this inner loop, not the outer
per-operation loop. The fuel argument is the loop index plus one, the
history list mutates while the loop runs (append plus capacity trim on
every resolved conflict), and the flag argument is `bHadConflict`, set as
soon as a conflicting local operation is found, before resolution is
attempted. A match is a local Replace whose path equals and whose value
differs from the incoming one under `FString` comparison (`fstringEq`).
Returns the mutated history, the emitted events (`ApplyOperation` on the
resolved copy, the conflict broadcast, the log entry) and the flag. `ApplyOperation` is the identity on content, so
content is not threaded through the scan. -/
def conflictScan (doc : Document) (op : Operation) (oldValue : Option Json) :
    Nat → List Operation → Bool → List Operation × List DocEvent × Bool
  | 0, hist, had => (hist, [], had)
  | i + 1, hist, had =>
    match hist.get? i with
    | none => conflictScan doc op oldValue i hist had
    | some localOp =>
      if fstringEq localOp.path op.path ∧ localOp.type = .replace
          ∧ ¬ fstringEq localOp.value op.value then
        let conflict : Conflict :=
          { path := op.path
            localValue := localOp.value
            remoteValue := op.value
            localOperation := localOp
            remoteOperation := op }
        match ResolveConflictDefault doc.conflictStrategy conflict with
        | some resolvedConflict =>
          let resolvedOp := { op with value := resolvedConflict.resolvedValue }
          let evs := DocEvent.applied resolvedOp ::
            DocEvent.conflictDetected resolvedConflict ::
            LogOperation doc resolvedOp oldValue resolvedConflict.resolvedValue true
              (some resolvedConflict)
          let hist2 := appendOpTrim doc.maxOperationHistory hist resolvedOp
          let next := conflictScan doc op oldValue i hist2 true
          (next.1, evs ++ next.2.1, next.2.2)
        | none => conflictScan doc op oldValue i hist true
      else conflictScan doc op oldValue i hist had

/-- The mutable state threaded through the per-operation loop of
`ApplyPatch`: the content field, the operation history and the event trace
emitted so far. -/
structure PatchLoopState where
  content : JsonObject
  hist : List Operation
  events : List DocEvent
deriving Inhabited

/-- One iteration of the per-operation loop of `ApplyPatch`: capture the
old value, run the conflict scan when the operation is a Replace, then —
only when no conflict was flagged — apply the operation verbatim, log it
without a conflict payload and append it to history with the capacity
trim. An operation whose conflict was flagged but whose resolution failed
is skipped entirely by the `bHadConflict` guard. -/
def applyPatchOp (doc : Document) (st : PatchLoopState) (op : Operation) :
    PatchLoopState :=
  let oldValue := oldValueOf st.content op
  let scanned :=
    if op.type = .replace then
      conflictScan doc op oldValue st.hist.length st.hist false
    else (st.hist, [], false)
  if scanned.2.2 then
    { content := st.content
      hist := scanned.1
      events := st.events ++ scanned.2.1 }
  else
    { content := ApplyOperation st.content op
      hist := appendOpTrim doc.maxOperationHistory scanned.1 op
      events := st.events ++ scanned.2.1 ++
        (DocEvent.applied op :: LogOperation doc op oldValue op.value false none) }

/-- Model of `UJsonCRDTDocument::CreateSnapshot`: the snapshot's content string is
the serialization of the current content, whose parse result is the
content itself. -/
def CreateSnapshot (now : Int) (doc : Document) : Snapshot :=
  { documentId := doc.documentId
    version := doc.version
    timestamp := now
    content := some doc.content }

/-- Model of `UJsonCRDTDocument::CreateAndAddSnapshot`: append a fresh snapshot and
trim the history from the front down to `MaxSnapshotHistory`
(`RemoveAt(0, Num - Max)`). -/
def CreateAndAddSnapshot (now : Int) (doc : Document) : Document :=
  let h := doc.snapshotHistory ++ [CreateSnapshot now doc]
  { doc with
    snapshotHistory :=
      if doc.maxSnapshotHistory < h.length then
        h.drop (h.length - doc.maxSnapshotHistory)
      else h }

/-- Model of `UJsonCRDTDocument::NotifyDocumentChanged`: broadcast the changed
delegate. The auto-local-save side effect writes the persistence record to
disk and mutates no document state on success; a failed write only sets
`LastErrorMessage` and is not modelled. -/
def NotifyDocumentChanged (doc : Document) : List DocEvent :=
  [DocEvent.documentChanged doc.documentId]

/-- Model of `UJsonCRDTDocument::SetContent`: an invalid object pointer (modelled by
`none`) fails without side effects; otherwise install the content, bump
the version, snapshot and notify. -/
def SetContent (now : Int) (doc : Document) (newContent : Option JsonObject) :
    Document × List DocEvent × Bool :=
  match newContent with
  | none => (doc, [], false)
  | some c =>
    let doc1 := CreateAndAddSnapshot now { doc with content := c, version := doc.version + 1 }
    (doc1, NotifyDocumentChanged doc1, true)

/-- Model of `UJsonCRDTDocument::SetContentFromString`: the argument is the parse
result of the JSON text (`none` when deserialization fails, which returns
failure without calling `SetContent`; the two failure paths coincide). -/
def SetContentFromString (now : Int) (doc : Document) (parsed : Option JsonObject) :
    Document × List DocEvent × Bool :=
  SetContent now doc parsed

/-- Model of `UJsonCRDTDocument::ApplyPatch`: reject a document id that
differs under `FString` comparison with no side effects, otherwise run the per-operation loop, bump the version
once, snapshot and notify, and report success. -/
def ApplyPatch (now : Int) (doc : Document) (patch : Patch) :
    Document × List DocEvent × Bool :=
  if ¬ fstringEq patch.documentId doc.documentId then (doc, [], false)
  else
    let st := patch.operations.foldl (applyPatchOp doc)
      { content := doc.content, hist := doc.operationHistory, events := [] }
    let doc1 := CreateAndAddSnapshot now
      { doc with
        content := st.content
        operationHistory := st.hist
        version := doc.version + 1 }
    (doc1, st.events ++ NotifyDocumentChanged doc1, true)

/-- Model of `UJsonCRDTDocument::RestoreFromSnapshot`: reject a snapshot
document id that differs under `FString` comparison; otherwise restore the content through `SetContentFromString`
(which itself bumps the version and snapshots), then overwrite the version
with the snapshot's recorded version and notify again. -/
def RestoreFromSnapshot (now : Int) (doc : Document) (snap : Snapshot) :
    Document × List DocEvent × Bool :=
  if ¬ fstringEq snap.documentId doc.documentId then (doc, [], false)
  else
    let r := SetContentFromString now doc snap.content
    if r.2.2 then
      let doc2 := { r.1 with version := snap.version }
      (doc2, r.2.1 ++ NotifyDocumentChanged doc2, true)
    else (r.1, r.2.1, false)

/-- The JSON record `UJsonCRDTDocument::SaveLocally` serializes: document
id, version, a wall-clock timestamp, the content, and the newest snapshot
when one exists. -/
structure SaveRecord where
  documentId : String
  version : Int
  timestamp : Int
  content : JsonObject
  latestSnapshot : Option Snapshot
deriving Inhabited

/-- Model of `UJsonCRDTDocument::SaveLocally`: produce the persistence record. The
document state is untouched; directory-creation, serialization and
file-write failures only set `LastErrorMessage` and are environment
effects outside the model. -/
def SaveLocally (now : Int) (doc : Document) : SaveRecord :=
  { documentId := doc.documentId
    version := doc.version
    timestamp := now
    content := doc.content
    latestSnapshot := doc.snapshotHistory.getLast? }

/-- The `latestSnapshot` object of a persisted record as read back by
`LoadFromLocal`; each field is optional because the source reads them with
`TryGet` accessors. `content` is the parse result of the stored content
string (`none` also when the field is absent, since the
default-constructed empty string parses to nothing). -/
structure SnapshotRecord where
  documentId : Option String := none
  version : Option Int := none
  timestamp : Option Int := none
  content : Option JsonObject := none
deriving Inhabited

/-- A persisted record as deserialized by `LoadFromLocal`. -/
structure LoadData where
  documentId : Option String := none
  version : Option Int := none
  content : Option JsonObject := none
  latestSnapshot : Option SnapshotRecord := none
deriving Inhabited

/-- Model of `UJsonCRDTDocument::LoadFromLocal`. The argument is the record read
and deserialized from the per-document file; `none` merges the
missing-file, unreadable-file and failed-deserialization errors, each of
which only sets `LastErrorMessage`. A present record is validated for its
document id (`FString` comparison, so ids differing only by case match),
then the version and content are adopted; a `latestSnapshot` whose id
matches is appended to the snapshot history with no capacity trim. -/
def LoadFromLocal (doc : Document) (record : Option LoadData) :
    Document × List DocEvent × Bool :=
  match record with
  | none =>
    ({ doc with lastError := "Failed to load document from local storage" }, [], false)
  | some d =>
    match d.documentId with
    | none => ({ doc with lastError := "Document ID mismatch" }, [], false)
    | some id =>
      if ¬ fstringEq id doc.documentId then
        ({ doc with lastError := "Document ID mismatch" }, [], false)
      else
        let doc1 :=
          match d.version with
          | some v => { doc with version := v }
          | none => doc
        match d.content with
        | none =>
          ({ doc1 with lastError := "Failed to get content from loaded data" }, [], false)
        | some c =>
          let doc2 := { doc1 with content := c }
          let doc3 :=
            match d.latestSnapshot with
            | none => doc2
            | some sr =>
              match sr.documentId with
              | none => doc2
              | some sid =>
                if ¬ fstringEq sid doc2.documentId then doc2
                else
                  { doc2 with
                    snapshotHistory := doc2.snapshotHistory ++
                      [{ documentId := sid
                         version := sr.version.getD 0
                         timestamp := sr.timestamp.getD 0
                         content := sr.content }] }
          (doc3, NotifyDocumentChanged doc3, true)

/-- Model of `UJsonCRDTDocument::RecoverDocument`: try the local load first and
broadcast a `"LocalStorage"` recovery on success; otherwise, when a
snapshot exists, try restoring the newest one and broadcast a
`"Snapshot"` recovery on success; otherwise fail recording the terminal
error message. The snapshot attempt starts from the state the failed load
left behind. -/
def RecoverDocument (now : Int) (doc : Document) (record : Option LoadData) :
    Document × List DocEvent × Bool :=
  let l := LoadFromLocal doc record
  if l.2.2 then
    (l.1, l.2.1 ++ [DocEvent.documentRecovered l.1.documentId "LocalStorage"], true)
  else
    match l.1.snapshotHistory.getLast? with
    | some snap =>
      let r := RestoreFromSnapshot now l.1 snap
      if r.2.2 then
        (r.1, l.2.1 ++ r.2.1 ++ [DocEvent.documentRecovered r.1.documentId "Snapshot"], true)
      else
        ({ r.1 with lastError := "Failed to recover document from any source" },
          l.2.1 ++ r.2.1, false)
    | none =>
      ({ l.1 with lastError := "Failed to recover document from any source" },
        l.2.1, false)

/-- Model of `UJsonCRDTDocument::Initialize`: adopt the id and create the initial
snapshot. The constructor defaults of `Document` model the state the
object carries into this call. -/
def InitializeDocument (now : Int) (doc : Document) (id : String) : Document :=
  CreateAndAddSnapshot now { doc with documentId := id }

/-- Boolean discriminator for `ApplyOperation` invocation events. -/
def isAppliedEvent : DocEvent → Bool
  | .applied _ => true
  | _ => false

/-- Boolean discriminator for conflict broadcast events. -/
def isConflictEvent : DocEvent → Bool
  | .conflictDetected _ => true
  | _ => false

/-- Boolean discriminator for logger-call events. -/
def isLoggedEvent : DocEvent → Bool
  | .logged _ => true
  | _ => false

/-- An older locally-recorded Replace at path slash-a with value one. -/
def localReplaceA1 : Operation :=
  { type := .replace, path := "/a", value := "1", timestamp := 1, clientId := "local" }

/-- A newer locally-recorded Replace at path slash-a with value two. -/
def localReplaceA2 : Operation :=
  { type := .replace, path := "/a", value := "2", timestamp := 2, clientId := "local" }

/-- An incoming remote Replace at path slash-a with value three. -/
def remoteReplaceA3 : Operation :=
  { type := .replace, path := "/a", value := "3", timestamp := 3, clientId := "remote" }

/-- A remote patch carrying the single Replace above. -/
def remoteReplacePatch : Patch :=
  { documentId := "doc", operations := [remoteReplaceA3] }

/-- A document whose history holds two locally-recorded Replace operations
at the same path, both with values differing from the incoming one, under
the remote-wins strategy (which always resolves). -/
def twoLocalReplacesDoc : Document :=
  { documentId := "doc"
    operationHistory := [localReplaceA1, localReplaceA2]
    conflictStrategy := .remoteWins }

/-- A document with one conflicting local Replace in history whose
installed resolver is the default resolver under the custom strategy, so
every resolution attempt fails. -/
def customStrategyDoc : Document :=
  { documentId := "doc"
    operationHistory := [localReplaceA1]
    conflictStrategy := .custom }

/-- A freshly-initialized document used in the Test-only-patch scenario. -/
def plainDoc : Document :=
  { documentId := "doc" }

/-- A patch of one Test operation with a matching document id. -/
def testOnlyPatch : Patch :=
  { documentId := "doc", operations := [{ type := .test, path := "/x", value := "1" }] }

/-- One snapshot of an empty document used to fill a history. -/
def fillerSnapshot : Snapshot :=
  { documentId := "doc", version := 5, content := some [] }

/-- A document whose snapshot history already sits at the default
capacity of ten. -/
def fullSnapshotDoc : Document :=
  { documentId := "doc", snapshotHistory := List.replicate 10 fillerSnapshot }

/-- A well-formed persisted record for the same document carrying a
latest-snapshot object whose id matches. -/
def matchingLoadRecord : LoadData :=
  { documentId := some "doc"
    version := some 7
    content := some [("k", Json.num 1)]
    latestSnapshot := some { documentId := some "doc", version := some 5, content := some [] } }

/-- A patch whose document id does not match `plainDoc`. -/
def mismatchedPatch : Patch :=
  { documentId := "other", operations := [remoteReplaceA3] }

/-- A patch whose document id differs from `plainDoc` only by letter
case, which `FString` comparison treats as equal. -/
def upperCasePatch : Patch :=
  { documentId := "DOC", operations := [] }

/-- A patch of one Add operation used to exhibit a concrete log entry. -/
def addOnlyPatch : Patch :=
  { documentId := "doc", operations := [{ type := .add, path := "/x", value := "1" }] }

/-- A conflict whose local operation is strictly newer than the remote
one. -/
def localNewerConflict : Conflict :=
  { path := "/a", localValue := "L", remoteValue := "R"
    localOperation := { type := .replace, path := "/a", timestamp := 2 }
    remoteOperation := { type := .replace, path := "/a", timestamp := 1 } }

/-- A conflict whose two operations carry equal timestamps (the tie). -/
def tiedConflict : Conflict :=
  { path := "/a", localValue := "L", remoteValue := "R"
    localOperation := { type := .replace, path := "/a", timestamp := 2 }
    remoteOperation := { type := .replace, path := "/a", timestamp := 2 } }

/-- The operation-history length bound of the document. -/
def opHistInv (doc : Document) : Prop :=
  doc.operationHistory.length ≤ doc.maxOperationHistory

/-- The snapshot-history length bound of the document. -/
def snapHistInv (doc : Document) : Prop :=
  doc.snapshotHistory.length ≤ doc.maxSnapshotHistory

theorem fstringEq_of_eq {a b : String} (h : a = b) : fstringEq a b = true := by
  subst h
  simp [fstringEq]

theorem length_appendOpTrim_le (maxHist : Nat) (hist : List Operation) (op : Operation)
    (h : hist.length ≤ maxHist) : (appendOpTrim maxHist hist op).length ≤ maxHist := by
  simp only [appendOpTrim]
  split
  · simp only [List.length_tail, List.length_append, List.length_singleton]
    omega
  · rename_i hc
    simp only [List.length_append, List.length_singleton] at hc ⊢
    omega

theorem conflictScan_length_le (doc : Document) (op : Operation) (ov : Option Json) :
    ∀ (fuel : Nat) (hist : List Operation) (had : Bool),
      hist.length ≤ doc.maxOperationHistory →
      (conflictScan doc op ov fuel hist had).1.length ≤ doc.maxOperationHistory := by
  intro fuel
  induction fuel with
  | zero => intro hist had h; simpa [conflictScan] using h
  | succ i ih =>
    intro hist had h
    rw [conflictScan]
    split
    · exact ih hist had h
    · dsimp only
      split
      · split
        · exact ih _ true (length_appendOpTrim_le _ _ _ h)
        · exact ih hist true h
      · exact ih hist had h

theorem applyPatchOp_content (doc : Document) (st : PatchLoopState) (op : Operation) :
    (applyPatchOp doc st op).content = st.content := by
  simp only [applyPatchOp, ApplyOperation]
  split <;> split <;> rfl

theorem foldl_applyPatchOp_content (doc : Document) :
    ∀ (ops : List Operation) (st : PatchLoopState),
      (ops.foldl (applyPatchOp doc) st).content = st.content := by
  intro ops
  induction ops with
  | nil => intro st; rfl
  | cons op rest ih =>
    intro st
    rw [List.foldl_cons, ih, applyPatchOp_content]

theorem applyPatchOp_hist_le (doc : Document) (st : PatchLoopState) (op : Operation)
    (h : st.hist.length ≤ doc.maxOperationHistory) :
    (applyPatchOp doc st op).hist.length ≤ doc.maxOperationHistory := by
  simp only [applyPatchOp]
  split
  · have hs := conflictScan_length_le doc op (oldValueOf st.content op) st.hist.length st.hist false h
    split
    · exact hs
    · exact length_appendOpTrim_le _ _ _ hs
  · split
    · exact h
    · exact length_appendOpTrim_le _ _ _ h

theorem foldl_applyPatchOp_hist_le (doc : Document) :
    ∀ (ops : List Operation) (st : PatchLoopState),
      st.hist.length ≤ doc.maxOperationHistory →
      (ops.foldl (applyPatchOp doc) st).hist.length ≤ doc.maxOperationHistory := by
  intro ops
  induction ops with
  | nil => intro st h; exact h
  | cons op rest ih =>
    intro st h
    rw [List.foldl_cons]
    exact ih _ (applyPatchOp_hist_le doc st op h)

theorem createAndAddSnapshot_snap_le (now : Int) (doc : Document) :
    (CreateAndAddSnapshot now doc).snapshotHistory.length ≤ doc.maxSnapshotHistory := by
  simp only [CreateAndAddSnapshot]
  split
  · simp only [List.length_drop, List.length_append, List.length_singleton]
    omega
  · rename_i hc
    simp only [List.length_append, List.length_singleton] at hc ⊢
    omega

theorem logOperation_source (doc : Document) (op : Operation) (ov : Option Json)
    (nv : String) (hc : Bool) (c : Option Conflict) (e : LogEntry)
    (h : DocEvent.logged e ∈ LogOperation doc op ov nv hc c) : e.source = "Remote" := by
  simp only [LogOperation] at h
  split at h
  · simp only [List.mem_singleton, DocEvent.logged.injEq] at h
    rw [h]
  · simp at h

theorem conflictScan_logged_source (doc : Document) (op : Operation) (ov : Option Json) :
    ∀ (fuel : Nat) (hist : List Operation) (had : Bool) (e : LogEntry),
      DocEvent.logged e ∈ (conflictScan doc op ov fuel hist had).2.1 →
      e.source = "Remote" := by
  intro fuel
  induction fuel with
  | zero => intro hist had e h; simp [conflictScan] at h
  | succ i ih =>
    intro hist had e h
    rw [conflictScan] at h
    split at h
    · exact ih hist had e h
    · dsimp only at h
      split at h
      · split at h
        · simp only [List.mem_append, List.mem_cons] at h
          rcases h with (hl | hl | hl) | hr
          · exact absurd hl (by simp)
          · exact absurd hl (by simp)
          · exact logOperation_source doc _ ov _ true _ e hl
          · exact ih _ true e hr
        · exact ih hist true e h
      · exact ih hist had e h

theorem applyPatchOp_logged_source (doc : Document) (st : PatchLoopState) (op : Operation)
    (e : LogEntry) (h : DocEvent.logged e ∈ (applyPatchOp doc st op).events) :
    DocEvent.logged e ∈ st.events ∨ e.source = "Remote" := by
  have hscan : ∀ ee : LogEntry,
      DocEvent.logged ee ∈ (if op.type = .replace then
        conflictScan doc op (oldValueOf st.content op) st.hist.length st.hist false
      else (st.hist, ([] : List DocEvent), false)).2.1 → ee.source = "Remote" := by
    intro ee hh
    split at hh
    · exact conflictScan_logged_source doc op _ _ _ _ ee hh
    · simp at hh
  simp only [applyPatchOp] at h
  split at h <;> split at h <;>
    simp only [List.mem_append, List.mem_cons] at h
  · rcases h with hl | hr
    · exact Or.inl hl
    · exact Or.inr (hscan e (by rw [if_pos (by assumption)]; exact hr))
  · rcases h with (hl | hr) | hx
    · exact Or.inl hl
    · exact Or.inr (hscan e (by rw [if_pos (by assumption)]; exact hr))
    · rcases hx with hx | hx
      · exact absurd hx (by simp)
      · exact Or.inr (logOperation_source doc op _ _ false none e hx)
  · rcases h with hl | hr
    · exact Or.inl hl
    · simp at hr
  · rcases h with (hl | hr) | hx
    · exact Or.inl hl
    · simp at hr
    · rcases hx with hx | hx
      · exact absurd hx (by simp)
      · exact Or.inr (logOperation_source doc op _ _ false none e hx)

theorem foldl_applyPatchOp_logged_source (doc : Document) :
    ∀ (ops : List Operation) (st : PatchLoopState) (e : LogEntry),
      DocEvent.logged e ∈ (ops.foldl (applyPatchOp doc) st).events →
      DocEvent.logged e ∈ st.events ∨ e.source = "Remote" := by
  intro ops
  induction ops with
  | nil => intro st e h; exact Or.inl h
  | cons op rest ih =>
    intro st e h
    rw [List.foldl_cons] at h
    rcases ih _ e h with hl | hr
    · exact applyPatchOp_logged_source doc st op e hl
    · exact Or.inr hr

theorem appendOpTrim_of_lt (maxHist : Nat) (hist : List Operation) (op : Operation)
    (h : hist.length < maxHist) : appendOpTrim maxHist hist op = hist ++ [op] := by
  simp only [appendOpTrim]
  rw [if_neg]
  simp only [List.length_append, List.length_singleton]
  omega

theorem applyPatchOp_test_hist (doc : Document) (st : PatchLoopState) (op : Operation)
    (ht : op.type = OperationType.test)
    (hcap : st.hist.length < doc.maxOperationHistory) :
    (applyPatchOp doc st op).hist = st.hist ++ [op] := by
  have hne : op.type ≠ OperationType.replace := by
    rw [ht]; exact fun hh => OperationType.noConfusion hh
  simp only [applyPatchOp, if_neg hne]
  rw [if_neg Bool.false_ne_true]
  exact appendOpTrim_of_lt _ _ _ hcap

theorem applyPatchOp_test_logcount (doc : Document) (st : PatchLoopState) (op : Operation)
    (ht : op.type = OperationType.test) (hlog : doc.loggingEnabled = true) :
    ((applyPatchOp doc st op).events.filter isLoggedEvent).length
      = (st.events.filter isLoggedEvent).length + 1 := by
  have hne : op.type ≠ OperationType.replace := by
    rw [ht]; exact fun hh => OperationType.noConfusion hh
  simp [applyPatchOp, hne, LogOperation, hlog, isLoggedEvent, List.filter_append]

theorem foldl_applyPatchOp_test (doc : Document) (hlog : doc.loggingEnabled = true) :
    ∀ (ops : List Operation) (st : PatchLoopState),
      (∀ op ∈ ops, op.type = OperationType.test) →
      st.hist.length + ops.length ≤ doc.maxOperationHistory →
      (ops.foldl (applyPatchOp doc) st).hist = st.hist ++ ops
      ∧ ((ops.foldl (applyPatchOp doc) st).events.filter isLoggedEvent).length
          = (st.events.filter isLoggedEvent).length + ops.length := by
  intro ops
  induction ops with
  | nil => intro st _ _; simp
  | cons op rest ih =>
    intro st hops hcap
    rw [List.foldl_cons]
    have ht := hops op (List.mem_cons_self _ _)
    have hlen : st.hist.length + (rest.length + 1) ≤ doc.maxOperationHistory := by
      simpa [List.length_cons] using hcap
    have hcap1 : st.hist.length < doc.maxOperationHistory := by omega
    have hh := applyPatchOp_test_hist doc st op ht hcap1
    obtain ⟨ih1, ih2⟩ := ih (applyPatchOp doc st op)
      (fun o ho => hops o (List.mem_cons_of_mem _ ho))
      (by rw [hh]; simp only [List.length_append, List.length_singleton]; omega)
    refine ⟨?_, ?_⟩
    · rw [ih1, hh, List.append_assoc]
      rfl
    · rw [ih2, applyPatchOp_test_logcount doc st op ht hlog]
      simp only [List.length_cons]
      omega

theorem walkPath_append (l1 : List (List Char)) :
    ∀ (l2 : List (List Char)) (cur v : Json),
      walkPath cur l1 = some v → v.isContainer = true →
      walkPath cur (l1 ++ l2) = walkPath v l2 := by
  induction l1 with
  | nil =>
    intro l2 cur v h _
    have hv := Option.some.inj h
    subst hv
    rfl
  | cons p t ih =>
    intro l2 cur v h hv
    rw [List.cons_append]
    cases cur with
    | obj fields =>
      cases hl : lookupField fields (String.mk (unescapeSeg p)) with
      | none => simp [walkPath, hl] at h
      | some w =>
        simp only [walkPath, hl] at h ⊢
        exact ih l2 w v h hv
    | arr elems =>
      simp only [walkPath] at h ⊢
      split at h
      · exact absurd h (by simp)
      · rw [if_neg (by assumption)]
        exact ih l2 _ v h hv
    | null =>
      simp only [walkPath] at h
      cases t with
      | nil =>
        simp at h
        subst h
        simp [Json.isContainer] at hv
      | cons q t2 => simp at h
    | boolean b =>
      simp only [walkPath] at h
      cases t with
      | nil =>
        simp at h
        subst h
        simp [Json.isContainer] at hv
      | cons q t2 => simp at h
    | num n =>
      simp only [walkPath] at h
      cases t with
      | nil =>
        simp at h
        subst h
        simp [Json.isContainer] at hv
      | cons q t2 => simp at h
    | str s =>
      simp only [walkPath] at h
      cases t with
      | nil =>
        simp at h
        subst h
        simp [Json.isContainer] at hv
      | cons q t2 => simp at h

theorem createAndAddSnapshot_content (now : Int) (doc : Document) :
    (CreateAndAddSnapshot now doc).content = doc.content := rfl

theorem createAndAddSnapshot_version (now : Int) (doc : Document) :
    (CreateAndAddSnapshot now doc).version = doc.version := rfl

theorem createAndAddSnapshot_opHist (now : Int) (doc : Document) :
    (CreateAndAddSnapshot now doc).operationHistory = doc.operationHistory := rfl

/-- C1: the claim says the backward scan of `operationHistory` stops at the
first (most recent) conflicting local Replace, the incoming operation is
applied exactly once, exactly one conflict notification fires, and exactly
one history entry is appended. On a document holding two conflicting local
Replace entries at the same path, the source instead fires the conflict
machinery once per match, because the `continue` in the resolved-conflict
branch continues the inner history loop rather than the outer operation
loop: the incoming Replace is applied twice, two conflict notifications
fire, two log entries are emitted and two entries are appended to history
(two plus the two pre-existing entries makes four). -/
theorem applyPatch_conflict_rescan_fires_twice :
    ((ApplyPatch 0 twoLocalReplacesDoc remoteReplacePatch).2.1.filter isConflictEvent).length = 2
    ∧ ((ApplyPatch 0 twoLocalReplacesDoc remoteReplacePatch).2.1.filter isAppliedEvent).length = 2
    ∧ ((ApplyPatch 0 twoLocalReplacesDoc remoteReplacePatch).2.1.filter isLoggedEvent).length = 2
    ∧ (ApplyPatch 0 twoLocalReplacesDoc remoteReplacePatch).1.operationHistory.length = 4 :=
  ⟨rfl, rfl, rfl, rfl⟩

/-- C2: the claim says an operation whose conflict was detected but whose
resolution failed (the default resolver under the custom strategy) is
still applied verbatim, logged without a conflict payload, and appended to
history. In the source the `bHadConflict` flag set on detection guards the
verbatim path, so the operation is skipped entirely: `ApplyPatch` still
reports success, but the operation history is unchanged and no
`ApplyOperation` invocation and no log entry occur for the operation. -/
theorem applyPatch_failed_resolution_skips_operation :
    (ApplyPatch 0 customStrategyDoc remoteReplacePatch).2.2 = true
    ∧ (ApplyPatch 0 customStrategyDoc remoteReplacePatch).1.operationHistory
        = customStrategyDoc.operationHistory
    ∧ ((ApplyPatch 0 customStrategyDoc remoteReplacePatch).2.1.filter isAppliedEvent).length = 0
    ∧ ((ApplyPatch 0 customStrategyDoc remoteReplacePatch).2.1.filter isLoggedEvent).length = 0 :=
  ⟨rfl, rfl, rfl, rfl⟩

/-- C3 counterexample: applying a patch consisting only of Test operations
does change the document's version: on a fresh document at version one, a
one-Test patch succeeds and leaves the version at two, because `ApplyPatch`
increments the version once per successful patch regardless of the
operations it carries. -/
theorem applyPatch_test_only_counterexample :
    (ApplyPatch 0 plainDoc testOnlyPatch).2.2 = true
    ∧ plainDoc.version = 1
    ∧ (ApplyPatch 0 plainDoc testOnlyPatch).1.version = 2 :=
  ⟨rfl, rfl, rfl⟩

/-- C3 (amended): for every patch consisting only of Test operations with
a matching document id (within history capacity and with logging enabled),
applying the patch succeeds, leaves the content unchanged, increments the
version by exactly one (the patch-level increment; the Test operations
themselves change nothing), appends each Test operation to
`operationHistory` in order, and produces exactly one log entry per
operation. -/
theorem applyPatch_test_only_amended (now : Int) (doc : Document) (patch : Patch)
    (hid : patch.documentId = doc.documentId)
    (hops : ∀ op ∈ patch.operations, op.type = OperationType.test)
    (hcap : doc.operationHistory.length + patch.operations.length ≤ doc.maxOperationHistory)
    (hlog : doc.loggingEnabled = true) :
    (ApplyPatch now doc patch).2.2 = true
    ∧ (ApplyPatch now doc patch).1.content = doc.content
    ∧ (ApplyPatch now doc patch).1.version = doc.version + 1
    ∧ (ApplyPatch now doc patch).1.operationHistory
        = doc.operationHistory ++ patch.operations
    ∧ ((ApplyPatch now doc patch).2.1.filter isLoggedEvent).length
        = patch.operations.length := by
  have hguard : ¬ ¬ fstringEq patch.documentId doc.documentId = true := by
    simp [fstringEq_of_eq hid]
  obtain ⟨h1, h2⟩ := foldl_applyPatchOp_test doc hlog patch.operations
    { content := doc.content, hist := doc.operationHistory, events := [] } hops hcap
  have hcontent := foldl_applyPatchOp_content doc patch.operations
    { content := doc.content, hist := doc.operationHistory, events := [] }
  simp only [ApplyPatch, if_neg hguard]
  refine ⟨trivial, ?_, ?_, ?_, ?_⟩
  · rw [createAndAddSnapshot_content]
    exact hcontent
  · rw [createAndAddSnapshot_version]
  · rw [createAndAddSnapshot_opHist]
    exact h1
  · simp only [NotifyDocumentChanged, List.filter_append]
    simp only at h2
    simp [h2, isLoggedEvent]

/-- C3 witness: the amended statement evaluated on the concrete one-Test
patch scenario. -/
theorem applyPatch_test_only_amended_witness :
    (ApplyPatch 0 plainDoc testOnlyPatch).1.version = plainDoc.version + 1
    ∧ (ApplyPatch 0 plainDoc testOnlyPatch).1.operationHistory
        = plainDoc.operationHistory ++ testOnlyPatch.operations :=
  have h := applyPatch_test_only_amended 0 plainDoc testOnlyPatch rfl
    (by intro op hop; simp [testOnlyPatch] at hop; rw [hop]) (by decide) rfl
  ⟨h.2.2.1, h.2.2.2.1⟩

/-- C4 counterexample: the claim says the empty path returns the whole
root. `GetValueAtPath` rejects an empty path up front and returns nothing
on the concrete root below, so the empty-path clause of the claim is
false (the slash path is the spelling that returns the whole root). -/
theorem getValueAtPath_empty_counterexample :
    GetValueAtPath [("content", Json.str "X")] "" = none
    ∧ GetValueAtPath [("content", Json.str "X")] ""
        ≠ some (Json.obj [("content", Json.str "X")]) :=
  ⟨rfl, fun h => Option.noConfusion h⟩

/-- C4 (amended): the empty path returns nothing (the source rejects it
before parsing), and a path that parses to no segments, such as the bare
slash, returns the whole root. For every non-empty path, resolution is
exactly the segment walk `walkPath` over the parsed segments, and the walk
fails — at any depth — on an object node whose fields do not contain the
unescaped segment (under case-insensitive `FString` key lookup) and on an
array node whose parsed index is negative or at least the array length;
the walk composes across any prefix of segments reaching an object or
array node. All definitions are total, so resolution never throws. -/
theorem getValueAtPath_amended :
    (∀ root : JsonObject, GetValueAtPath root "" = none)
    ∧ (∀ root : JsonObject, GetValueAtPath root "/" = some (Json.obj root))
    ∧ (∀ (root : JsonObject) (path : String), path ≠ "" →
        GetValueAtPath root path = walkPath (Json.obj root) (pathParts path))
    ∧ (∀ (fields : JsonObject) (part : List Char) (rest : List (List Char)),
        lookupField fields (String.mk (unescapeSeg part)) = none →
        walkPath (Json.obj fields) (part :: rest) = none)
    ∧ (∀ (elems : List Json) (part : List Char) (rest : List (List Char)),
        (atoiChars (unescapeSeg part) < 0
          ∨ Int.ofNat elems.length ≤ atoiChars (unescapeSeg part)) →
        walkPath (Json.arr elems) (part :: rest) = none)
    ∧ (∀ (l1 l2 : List (List Char)) (cur v : Json),
        walkPath cur l1 = some v → v.isContainer = true →
        walkPath cur (l1 ++ l2) = walkPath v l2) := by
  refine ⟨fun root => rfl, fun root => rfl, ?_, ?_, ?_,
    fun l1 l2 cur v h hv => walkPath_append l1 l2 cur v h hv⟩
  · intro root path hne
    simp only [GetValueAtPath, if_neg hne]
    split
    · rename_i hempty
      have hnil : pathParts path = [] := by
        simpa using hempty
      rw [hnil]
      rfl
    · rfl
  · intro fields part rest hlook
    rw [walkPath]
    simp [hlook]
  · intro elems part rest h
    rw [walkPath]
    simp only [if_pos h]

/-- C4 witness: the amended statement evaluated at concrete inputs — a
missing key at the root, and an out-of-range array index one level deep,
both chained through the bridge clause to `GetValueAtPath` itself. -/
theorem getValueAtPath_amended_witness :
    GetValueAtPath [("a", Json.num 1)] "/b" = none
    ∧ GetValueAtPath [("a", Json.arr [Json.num 5])] "/a/7" = none := by
  constructor
  · have h1 := getValueAtPath_amended.2.2.1 [("a", Json.num 1)] "/b" (by decide)
    have h2 := getValueAtPath_amended.2.2.2.1 [("a", Json.num 1)] ['b'] [] rfl
    exact h1.trans h2
  · have h1 := getValueAtPath_amended.2.2.1 [("a", Json.arr [Json.num 5])] "/a/7" (by decide)
    have h2 := getValueAtPath_amended.2.2.2.2.2 [['a']] [['7']]
      (Json.obj [("a", Json.arr [Json.num 5])]) (Json.arr [Json.num 5]) rfl rfl
    have h3 := getValueAtPath_amended.2.2.2.2.1 [Json.num 5] ['7'] [] (by decide)
    exact h1.trans (h2.trans h3)

theorem opHistInv_setContent (now : Int) (doc : Document) (c : Option JsonObject)
    (h : opHistInv doc) : opHistInv (SetContent now doc c).1 := by
  cases c with
  | none => exact h
  | some x => exact h

theorem snapHistInv_setContent (now : Int) (doc : Document) (c : Option JsonObject)
    (h : snapHistInv doc) : snapHistInv (SetContent now doc c).1 := by
  cases c with
  | none => exact h
  | some x => exact createAndAddSnapshot_snap_le now _

theorem opHistInv_applyPatch (now : Int) (doc : Document) (patch : Patch)
    (h : opHistInv doc) : opHistInv (ApplyPatch now doc patch).1 := by
  by_cases hid : fstringEq patch.documentId doc.documentId = true
  · simp only [ApplyPatch, if_neg (not_not_intro hid)]
    exact foldl_applyPatchOp_hist_le doc patch.operations _ h
  · simp only [ApplyPatch, if_pos hid]
    exact h

theorem snapHistInv_applyPatch (now : Int) (doc : Document) (patch : Patch)
    (h : snapHistInv doc) : snapHistInv (ApplyPatch now doc patch).1 := by
  by_cases hid : fstringEq patch.documentId doc.documentId = true
  · simp only [ApplyPatch, if_neg (not_not_intro hid)]
    exact createAndAddSnapshot_snap_le now _
  · simp only [ApplyPatch, if_pos hid]
    exact h

theorem opHistInv_restore (now : Int) (doc : Document) (snap : Snapshot)
    (h : opHistInv doc) : opHistInv (RestoreFromSnapshot now doc snap).1 := by
  simp only [RestoreFromSnapshot, SetContentFromString]
  split
  · exact h
  · cases hc : snap.content with
    | none => simp only [SetContent, hc]; exact h
    | some x => simp only [SetContent, hc]; exact h

theorem snapHistInv_restore (now : Int) (doc : Document) (snap : Snapshot)
    (h : snapHistInv doc) : snapHistInv (RestoreFromSnapshot now doc snap).1 := by
  simp only [RestoreFromSnapshot, SetContentFromString]
  split
  · exact h
  · cases hc : snap.content with
    | none => simp only [SetContent, hc]; exact h
    | some x =>
      simp only [SetContent, hc]
      exact createAndAddSnapshot_snap_le now _

theorem opHistInv_load (doc : Document) (record : Option LoadData)
    (h : opHistInv doc) : opHistInv (LoadFromLocal doc record).1 := by
  cases record with
  | none => exact h
  | some d =>
    simp only [LoadFromLocal]
    repeat' split
    all_goals exact h

theorem opHistInv_recover (now : Int) (doc : Document) (record : Option LoadData)
    (h : opHistInv doc) : opHistInv (RecoverDocument now doc record).1 := by
  have hl := opHistInv_load doc record h
  simp only [RecoverDocument]
  split
  · exact hl
  · split
    · split
      · exact opHistInv_restore now _ _ hl
      · exact opHistInv_restore now _ _ hl
    · exact hl

/-- C5 counterexample: a successful `LoadFromLocal` on a document whose
snapshot history already sits at the default capacity of ten appends the
record's snapshot without trimming, leaving eleven entries — the claimed
bound does not hold at all times. -/
theorem loadFromLocal_snapshot_capacity_counterexample :
    fullSnapshotDoc.snapshotHistory.length = fullSnapshotDoc.maxSnapshotHistory
    ∧ (LoadFromLocal fullSnapshotDoc (some matchingLoadRecord)).2.2 = true
    ∧ (LoadFromLocal fullSnapshotDoc (some matchingLoadRecord)).1.snapshotHistory.length = 11
    ∧ (LoadFromLocal fullSnapshotDoc (some matchingLoadRecord)).1.maxSnapshotHistory = 10 :=
  ⟨rfl, rfl, rfl, rfl⟩

/-- C5 (amended): the operation-history bound is preserved by every
operation (`InitializeDocument`, `SetContent`, `ApplyPatch`,
`RestoreFromSnapshot`, `LoadFromLocal`, `RecoverDocument`; `SaveLocally`
leaves the document unchanged), with the oldest entry evicted whenever an
append would exceed capacity; the snapshot-history bound is established by
every snapshot append (`CreateAndAddSnapshot` trims oldest-first) and so
is preserved by `InitializeDocument`, `SetContent`, `ApplyPatch` and
`RestoreFromSnapshot` — but `LoadFromLocal` (and hence `RecoverDocument`
through it) appends the record's snapshot without trimming and can exceed
the snapshot bound, as the counterexample shows. -/
theorem history_bounds_amended :
    (∀ (now : Int) (doc : Document) (id : String),
      opHistInv doc → opHistInv (InitializeDocument now doc id))
    ∧ (∀ (now : Int) (doc : Document) (id : String),
        snapHistInv (InitializeDocument now doc id))
    ∧ (∀ (now : Int) (doc : Document) (c : Option JsonObject),
        opHistInv doc → opHistInv (SetContent now doc c).1)
    ∧ (∀ (now : Int) (doc : Document) (c : Option JsonObject),
        snapHistInv doc → snapHistInv (SetContent now doc c).1)
    ∧ (∀ (now : Int) (doc : Document) (patch : Patch),
        opHistInv doc → opHistInv (ApplyPatch now doc patch).1)
    ∧ (∀ (now : Int) (doc : Document) (patch : Patch),
        snapHistInv doc → snapHistInv (ApplyPatch now doc patch).1)
    ∧ (∀ (now : Int) (doc : Document) (snap : Snapshot),
        opHistInv doc → opHistInv (RestoreFromSnapshot now doc snap).1)
    ∧ (∀ (now : Int) (doc : Document) (snap : Snapshot),
        snapHistInv doc → snapHistInv (RestoreFromSnapshot now doc snap).1)
    ∧ (∀ (doc : Document) (record : Option LoadData),
        opHistInv doc → opHistInv (LoadFromLocal doc record).1)
    ∧ (∀ (now : Int) (doc : Document) (record : Option LoadData),
        opHistInv doc → opHistInv (RecoverDocument now doc record).1)
    ∧ (∀ (maxH : Nat) (hist : List Operation) (op : Operation),
        hist ≠ [] → maxH < hist.length + 1 →
        appendOpTrim maxH hist op = hist.tail ++ [op])
    ∧ (∀ (now : Int) (doc : Document),
        doc.maxSnapshotHistory < doc.snapshotHistory.length + 1 →
        (CreateAndAddSnapshot now doc).snapshotHistory
          = (doc.snapshotHistory ++ [CreateSnapshot now doc]).drop
              (doc.snapshotHistory.length + 1 - doc.maxSnapshotHistory)) := by
  refine ⟨fun now doc id h => h,
    fun now doc id => createAndAddSnapshot_snap_le now _,
    opHistInv_setContent, snapHistInv_setContent,
    opHistInv_applyPatch, snapHistInv_applyPatch,
    opHistInv_restore, snapHistInv_restore,
    opHistInv_load, opHistInv_recover, ?_, ?_⟩
  · intro maxH hist op hne hlt
    simp only [appendOpTrim]
    rw [if_pos (by simp only [List.length_append, List.length_singleton]; omega)]
    cases hist with
    | nil => exact absurd rfl hne
    | cons a t => simp
  · intro now doc hlt
    simp only [CreateAndAddSnapshot]
    rw [if_pos (by simp only [List.length_append, List.length_singleton]; omega)]
    simp only [List.length_append, List.length_singleton]

/-- C5 witness: the bound-preservation statements evaluated on the
concrete conflict scenario document, which starts within both bounds. -/
theorem history_bounds_amended_witness :
    opHistInv (ApplyPatch 0 twoLocalReplacesDoc remoteReplacePatch).1
    ∧ snapHistInv (ApplyPatch 0 twoLocalReplacesDoc remoteReplacePatch).1 :=
  ⟨history_bounds_amended.2.2.2.2.1 0 twoLocalReplacesDoc remoteReplacePatch
      (by unfold opHistInv; decide),
   history_bounds_amended.2.2.2.2.2.1 0 twoLocalReplacesDoc remoteReplacePatch
      (by unfold snapHistInv; decide)⟩

/-- C6: every successful `SetContent` and every successful `ApplyPatch`
increments the version by exactly one — `ApplyPatch` increments once per
patch regardless of how many operations or conflicts it carried — and a
successful `RestoreFromSnapshot` leaves the version equal to the
snapshot's recorded version (the increment performed by its internal
content restore is overwritten). -/
theorem version_increment_spec :
    (∀ (now : Int) (doc : Document) (c : Option JsonObject),
      (SetContent now doc c).2.2 = true →
      (SetContent now doc c).1.version = doc.version + 1)
    ∧ (∀ (now : Int) (doc : Document) (patch : Patch),
        (ApplyPatch now doc patch).2.2 = true →
        (ApplyPatch now doc patch).1.version = doc.version + 1)
    ∧ (∀ (now : Int) (doc : Document) (snap : Snapshot),
        (RestoreFromSnapshot now doc snap).2.2 = true →
        (RestoreFromSnapshot now doc snap).1.version = snap.version) := by
  refine ⟨?_, ?_, ?_⟩
  · intro now doc c h
    cases c with
    | none => simp [SetContent] at h
    | some x => rfl
  · intro now doc patch h
    by_cases hid : fstringEq patch.documentId doc.documentId = true
    · simp only [ApplyPatch, if_neg (not_not_intro hid)]
      rfl
    · simp only [Bool.not_eq_true] at hid
      simp [ApplyPatch, hid] at h
  · intro now doc snap h
    by_cases hid : fstringEq snap.documentId doc.documentId = true
    case neg =>
      simp only [Bool.not_eq_true] at hid
      simp [RestoreFromSnapshot, hid] at h
    case pos =>
      simp only [RestoreFromSnapshot, if_neg (not_not_intro hid)] at h ⊢
      by_cases hok : (SetContentFromString now doc snap.content).2.2 = true
      · rw [if_pos hok]
      · have hf : (SetContentFromString now doc snap.content).2.2 = false := by
          revert hok
          cases (SetContentFromString now doc snap.content).2.2 <;> simp
        rw [hf] at h
        simp at h

/-- C6 witness: the three clauses evaluated on concrete successful calls. -/
theorem version_increment_spec_witness :
    (SetContent 0 plainDoc (some [("a", Json.null)])).1.version = plainDoc.version + 1
    ∧ (ApplyPatch 0 plainDoc testOnlyPatch).1.version = plainDoc.version + 1
    ∧ (RestoreFromSnapshot 0 fullSnapshotDoc fillerSnapshot).1.version
        = fillerSnapshot.version :=
  ⟨version_increment_spec.1 0 plainDoc (some [("a", Json.null)]) rfl,
   version_increment_spec.2.1 0 plainDoc testOnlyPatch rfl,
   version_increment_spec.2.2 0 fullSnapshotDoc fillerSnapshot rfl⟩

/-- C7: the default resolver under last-writer-wins always succeeds,
marks the conflict resolved, and picks the local value exactly when the
local operation's timestamp is strictly greater than the remote one's,
otherwise — tie included — the remote value; the outcome is a function of
the two operations. -/
theorem lastWriterWins_resolution (c : Conflict) :
    ResolveConflictDefault ConflictStrategy.lastWriterWins c = some (ResolveLastWriterWins c)
    ∧ (ResolveLastWriterWins c).resolved = true
    ∧ (c.remoteOperation.timestamp < c.localOperation.timestamp →
        (ResolveLastWriterWins c).resolvedValue = c.localValue)
    ∧ (c.localOperation.timestamp ≤ c.remoteOperation.timestamp →
        (ResolveLastWriterWins c).resolvedValue = c.remoteValue) := by
  refine ⟨rfl, rfl, ?_, ?_⟩
  · intro h
    simp [ResolveLastWriterWins, if_pos h]
  · intro h
    simp [ResolveLastWriterWins, if_neg (not_lt.mpr h)]

/-- C7 witness: evaluated on a conflict whose local side is newer and on a
tied conflict. -/
theorem lastWriterWins_resolution_witness :
    (ResolveLastWriterWins localNewerConflict).resolvedValue = localNewerConflict.localValue
    ∧ (ResolveLastWriterWins tiedConflict).resolvedValue = tiedConflict.remoteValue :=
  ⟨(lastWriterWins_resolution localNewerConflict).2.2.1 (by decide),
   (lastWriterWins_resolution tiedConflict).2.2.2 (by decide)⟩

/-- C8: `ApplyPatch` fails exactly when the patch's document id differs
from the document's under `FString` comparison (`fstringEq`, ignoring
letter case); on that failure the entire document state is unchanged, and
on a matching id — including ids differing only by case — it succeeds
regardless of the patch's base version or operations. -/
theorem applyPatch_validation (now : Int) (doc : Document) (patch : Patch) :
    ((ApplyPatch now doc patch).2.2 = true
      ↔ fstringEq patch.documentId doc.documentId = true)
    ∧ (fstringEq patch.documentId doc.documentId = false →
        (ApplyPatch now doc patch).1 = doc) := by
  by_cases hid : fstringEq patch.documentId doc.documentId = true
  · constructor
    · simp only [ApplyPatch, if_neg (not_not_intro hid)]
      simp [hid]
    · intro hn
      rw [hid] at hn
      exact absurd hn (by simp)
  · constructor
    · simp only [ApplyPatch, if_pos hid]
      exact ⟨fun hh => absurd hh (by simp), fun hh => absurd hh hid⟩
    · intro _
      simp only [ApplyPatch, if_pos hid]

/-- C8 witness: a patch whose id genuinely differs is rejected with the
document untouched, while a patch whose id differs only by letter case is
accepted. -/
theorem applyPatch_validation_witness :
    (ApplyPatch 0 plainDoc mismatchedPatch).1 = plainDoc
    ∧ (ApplyPatch 0 plainDoc mismatchedPatch).2.2 = false
    ∧ (ApplyPatch 0 plainDoc upperCasePatch).2.2 = true :=
  ⟨(applyPatch_validation 0 plainDoc mismatchedPatch).2 (by decide), rfl,
   (applyPatch_validation 0 plainDoc upperCasePatch).1.mpr (by decide)⟩

/-- C9: `RecoverDocument` attempts the local load first, broadcasting a
recovery tagged LocalStorage on success; only when the load fails does it
fall back to restoring the newest snapshot-history entry, broadcasting a
recovery tagged Snapshot on success; when the load fails and the snapshot
history is empty, or the restore also fails, it returns failure and
records the terminal error message in `lastError`. -/
theorem recoverDocument_order (now : Int) (doc : Document) (record : Option LoadData) :
    ((LoadFromLocal doc record).2.2 = true →
      (RecoverDocument now doc record).2.2 = true
      ∧ DocEvent.documentRecovered (LoadFromLocal doc record).1.documentId "LocalStorage"
          ∈ (RecoverDocument now doc record).2.1)
    ∧ ((LoadFromLocal doc record).2.2 = false →
        (LoadFromLocal doc record).1.snapshotHistory = [] →
        (RecoverDocument now doc record).2.2 = false
        ∧ (RecoverDocument now doc record).1.lastError
            = "Failed to recover document from any source")
    ∧ (∀ snap : Snapshot,
        (LoadFromLocal doc record).2.2 = false →
        (LoadFromLocal doc record).1.snapshotHistory.getLast? = some snap →
        ((RestoreFromSnapshot now (LoadFromLocal doc record).1 snap).2.2 = true →
          (RecoverDocument now doc record).2.2 = true
          ∧ DocEvent.documentRecovered
              (RestoreFromSnapshot now (LoadFromLocal doc record).1 snap).1.documentId
              "Snapshot"
            ∈ (RecoverDocument now doc record).2.1)
        ∧ ((RestoreFromSnapshot now (LoadFromLocal doc record).1 snap).2.2 = false →
          (RecoverDocument now doc record).2.2 = false
          ∧ (RecoverDocument now doc record).1.lastError
              = "Failed to recover document from any source")) := by
  refine ⟨?_, ?_, ?_⟩
  · intro h
    simp [RecoverDocument, h]
  · intro h hempty
    simp [RecoverDocument, h, hempty]
  · intro snap h hlast
    constructor
    · intro hr
      simp [RecoverDocument, h, hlast, hr]
    · intro hr
      simp [RecoverDocument, h, hlast, hr]

/-- C9 witness: recovery of a fresh document with no local record and an
empty snapshot history fails and records the terminal error. -/
theorem recoverDocument_order_witness :
    (RecoverDocument 0 plainDoc none).2.2 = false
    ∧ (RecoverDocument 0 plainDoc none).1.lastError
        = "Failed to recover document from any source" :=
  (recoverDocument_order 0 plainDoc none).2.1 rfl rfl

/-- C10: every log entry the document's operation logging emits during
`ApplyPatch` carries source Remote — for every operation of every patch,
conflicting or not — so the document never logs an entry with source
Local. -/
theorem logOperation_source_remote (now : Int) (doc : Document) (patch : Patch)
    (e : LogEntry) (h : DocEvent.logged e ∈ (ApplyPatch now doc patch).2.1) :
    e.source = "Remote" := by
  by_cases hid : fstringEq patch.documentId doc.documentId = true
  case neg =>
    simp only [Bool.not_eq_true] at hid
    simp [ApplyPatch, hid] at h
  case pos =>
    simp only [ApplyPatch, if_neg (not_not_intro hid)] at h
    simp only [NotifyDocumentChanged, List.mem_append, List.mem_singleton] at h
    rcases h with hl | hr
    · rcases foldl_applyPatchOp_logged_source doc patch.operations _ e hl with hm | hs
      · simp at hm
      · exact hs
    · exact absurd hr (by simp)

/-- C10 witness: the concrete log entry emitted for a one-Add patch
carries source Remote. -/
theorem logOperation_source_remote_witness :
    ({ documentId := "doc", operationType := "Add", path := "/x", oldValue := none,
       newValue := "1", hadConflict := false, conflict := none, clientId := "",
       source := "Remote" } : LogEntry).source = "Remote" :=
  logOperation_source_remote 0 plainDoc addOnlyPatch _
    (List.Mem.tail _ (List.Mem.head _))

end JsonCRDT
